import Mathlib

/-!
Shallow embedding of the presence-and-message-store core of `src/app.py`
(the localshare relay).

Mapping of Python state to Lean values:
* the global dict `users` (`{user_id: {"name": ..., "last_seen": ...}}`)
  becomes an insertion-ordered association list `Users = List (String × UserInfo)`;
* the global list `messages` becomes `List Msg`;
* `time.time()` results become rationals (`ℚ`), passed explicitly as `now`;
* `uuid.uuid4()` results become explicitly passed `fresh_id` strings;
* each Flask handler becomes a pure function from its arguments and the
  relevant state to the new state and its response; Python truthiness of a
  string argument (`if not name`, `if user_id and ...`, `all([...])`)
  is the test against the empty string `""`.
-/

set_option autoImplicit false

namespace LocalShare

/-- One registry record: `{"name": ..., "last_seen": ...}` in `app.py`. -/
structure UserInfo where
  name : String
  last_seen : ℚ
  deriving DecidableEq, Repr

/-- The global `users` dict: insertion-ordered, keys unique in reachable states. -/
abbrev Users := List (String × UserInfo)

/-- First-occurrence lookup, the embedding of `users[k]` / `k in users`. -/
def dictLookup (k : String) : Users → Option UserInfo
  | [] => none
  | (k', v) :: rest => if k' = k then some v else dictLookup k rest

/-- The embedding of `users[k] = v`: overwrite the first occurrence, else append. -/
def dictInsert (k : String) (v : UserInfo) : Users → Users
  | [] => [(k, v)]
  | (k', v') :: rest =>
      if k' = k then (k, v) :: rest else (k', v') :: dictInsert k v rest

/-- One stored message entry, the dict built in `send_message` / `send_file`. -/
structure Msg where
  msg_id : String
  from_name : String
  from_user_id : String
  to_user_id : String
  type : String
  content : String
  timestamp : ℚ
  deriving DecidableEq, Repr

/-- `users.get(from_user_id, {}).get("name", "Unknown")` (app.py lines 108, 151). -/
def usersGetName (users : Users) (uid : String) : String :=
  match dictLookup uid users with
  | some info => info.name
  | none => "Unknown"

/-- Builds the `msg_entry` dict of `send_message` (and, with `type = "file"`,
the `file_msg` dict of `send_file`). -/
def mkMsgEntry (users : Users) (from_user_id to_user_id mtype content msg_id : String)
    (now : ℚ) : Msg :=
  { msg_id := msg_id
    from_name := usersGetName users from_user_id
    from_user_id := from_user_id
    to_user_id := to_user_id
    type := mtype
    content := content
    timestamp := now }

/-- One pass of the body of `prune_users` (app.py lines 32-42): the part that
runs under `users_lock` once `now` has been read.  Returns the retained
registry (`active_users`) together with the list of pruned entries, in the
order their `print` lines are emitted. -/
def prune_users_sweep (now timeout : ℚ) : Users → Users × List (String × UserInfo)
  | [] => ([], [])
  | (uid, info) :: rest =>
      let r := prune_users_sweep now timeout rest
      if now - info.last_seen < timeout then ((uid, info) :: r.1, r.2)
      else (r.1, (uid, info) :: r.2)

/-- Successful `/login` response body: `{"status": "ok", "user_id": ..., "name": ...}`. -/
structure LoginOk where
  user_id : String
  name : String
  deriving DecidableEq, Repr

/-- The `/login` handler core (app.py lines 55-72).  `fresh_id` stands for
`str(uuid.uuid4())`; `now` for `time.time()`.  `if not name` rejects exactly
the empty string once the transport has produced a string argument. -/
def login (users : Users) (name fresh_id : String) (now : ℚ) :
    Except String (Users × LoginOk) :=
  if name = "" then Except.error "Name is required"
  else Except.ok (dictInsert fresh_id ⟨name, now⟩ users, ⟨fresh_id, name⟩)

/-- `/heartbeat` outcome: HTTP 200 `ok` or HTTP 404 `User not found`. -/
inductive HeartbeatResult where
  | ok
  | notFound
  deriving DecidableEq, Repr

/-- `users[user_id]["last_seen"] = time.time()`: update the `last_seen` field
of the first entry with the given key, leaving everything else in place. -/
def touchEntry (k : String) (now : ℚ) : Users → Users
  | [] => []
  | (k', v) :: rest =>
      if k' = k then (k', ⟨v.name, now⟩) :: rest else (k', v) :: touchEntry k now rest

/-- The `/heartbeat` handler core (app.py lines 74-86):
`if user_id and user_id in users` then refresh `last_seen`, else 404. -/
def heartbeat (users : Users) (user_id : String) (now : ℚ) : Users × HeartbeatResult :=
  if user_id ≠ "" ∧ (dictLookup user_id users).isSome then
    (touchEntry user_id now users, HeartbeatResult.ok)
  else (users, HeartbeatResult.notFound)

/-- The `/users` handler core (app.py lines 88-94): the roster snapshot
`[{"id": uid, "name": info["name"]}, ...]` in registry order. -/
def get_users (users : Users) : List (String × String) :=
  users.map (fun u => (u.1, u.2.name))

/-- Outcome of `/send/message` and `/send/file`: HTTP 200 or HTTP 400. -/
inductive SendResult where
  | ok
  | missingFields
  deriving DecidableEq, Repr

/-- The `/send/message` handler core (app.py lines 96-124).
`if not all([from_user_id, to_user_id, message])` rejects when any argument is
the empty string; otherwise the entry is built (timestamp `now`, id `fresh_id`)
and appended to the log. -/
def send_message (users : Users) (msgs : List Msg)
    (from_user_id to_user_id message fresh_id : String) (now : ℚ) :
    List Msg × SendResult :=
  if from_user_id = "" ∨ to_user_id = "" ∨ message = "" then
    (msgs, SendResult.missingFields)
  else
    (msgs ++ [mkMsgEntry users from_user_id to_user_id "message" message fresh_id now],
     SendResult.ok)

/-- The `/send/file` handler core (app.py lines 130-171), after the transport
has stored the upload: `filename` is the sanitized name.  Missing sender or
target, or an empty filename, is rejected; otherwise a `"file"` entry is
appended to the log. -/
def send_file (users : Users) (msgs : List Msg)
    (from_user_id to_user_id filename fresh_id : String) (now : ℚ) :
    List Msg × SendResult :=
  if from_user_id = "" ∨ to_user_id = "" then (msgs, SendResult.missingFields)
  else if filename = "" then (msgs, SendResult.missingFields)
  else
    (msgs ++ [mkMsgEntry users from_user_id to_user_id "file" filename fresh_id now],
     SendResult.ok)

/-- The retrieval loop of `/get/messages` (app.py lines 182-189): keep, in log
order, each message with `msg['timestamp'] > since_timestamp` and
`msg['to_user_id'] == user_id or msg['to_user_id'] == 'all'`. -/
def get_messages : List Msg → String → ℚ → List Msg
  | [], _, _ => []
  | m :: rest, uid, since =>
      if since < m.timestamp ∧ (m.to_user_id = uid ∨ m.to_user_id = "all") then
        m :: get_messages rest uid since
      else get_messages rest uid since

/-- The two shared globals of `app.py`, as one state record. -/
structure AppState where
  users : Users
  messages : List Msg
  deriving DecidableEq, Repr

/-- `/login` as a transition on the whole shared state. -/
def login_route (s : AppState) (name fresh_id : String) (now : ℚ) :
    AppState × Except String LoginOk :=
  match login s.users name fresh_id now with
  | Except.error e => (s, Except.error e)
  | Except.ok (users', resp) => ({ s with users := users' }, Except.ok resp)

/-- `/heartbeat` as a transition on the whole shared state. -/
def heartbeat_route (s : AppState) (user_id : String) (now : ℚ) :
    AppState × HeartbeatResult :=
  ({ s with users := (heartbeat s.users user_id now).1 },
   (heartbeat s.users user_id now).2)

/-- `/users` as a transition on the whole shared state (a pure read). -/
def get_users_route (s : AppState) : AppState × List (String × String) :=
  (s, get_users s.users)

/-- `/send/message` as a transition on the whole shared state. -/
def send_message_route (s : AppState)
    (from_user_id to_user_id message fresh_id : String) (now : ℚ) :
    AppState × SendResult :=
  let r := send_message s.users s.messages from_user_id to_user_id message fresh_id now
  ({ s with messages := r.1 }, r.2)

/-- `/send/file` as a transition on the whole shared state. -/
def send_file_route (s : AppState)
    (from_user_id to_user_id filename fresh_id : String) (now : ℚ) :
    AppState × SendResult :=
  let r := send_file s.users s.messages from_user_id to_user_id filename fresh_id now
  ({ s with messages := r.1 }, r.2)

/-- `/get/messages` as a transition on the whole shared state, with the
handler's `if not user_id` guard (app.py lines 173-189). -/
def get_messages_route (s : AppState) (user_id : String) (since : ℚ) :
    AppState × Except String (List Msg) :=
  (s, if user_id = "" then Except.error "User ID required"
      else Except.ok (get_messages s.messages user_id since))

/-- One `prune_users` sweep as a transition on the whole shared state;
the second component is the emitted prune log. -/
def prune_route (s : AppState) (now timeout : ℚ) :
    AppState × List (String × UserInfo) :=
  ({ s with users := (prune_users_sweep now timeout s.users).1 },
   (prune_users_sweep now timeout s.users).2)

/-!
Interleaving model for `send_message` (app.py lines 96-124): the handler
builds `msg_entry` — reading `time.time()` and `uuid.uuid4()` — *before*
entering `with messages_lock:`; only the `messages.append(msg_entry)` itself
is inside the critical section.  We model two in-flight `send_message` calls
as two threads, each executing two phases: `pickTimestamp` (build the entry,
outside the lock) and `appendUnderLock` (the locked append).  The shared
clock is a perfect strictly increasing `time.time()`: each read returns the
current value and advances it by one.
-/

/-- One in-flight `send_message` request: its arguments plus the `msg_entry`
it has built so far (`none` before its `pickTimestamp` phase ran). -/
structure PendingSend where
  from_user_id : String
  to_user_id : String
  content : String
  msg_id : String
  prepared : Option Msg
  deriving DecidableEq, Repr

/-- Shared state for two concurrent `send_message` calls. -/
structure ConcState where
  clock : ℚ
  users : Users
  messages : List Msg
  thread0 : PendingSend
  thread1 : PendingSend
  deriving DecidableEq, Repr

/-- The two phases of `send_message`, tagged by thread (`false` = thread 0). -/
inductive SendPhase where
  | pickTimestamp (i : Bool)
  | appendUnderLock (i : Bool)
  deriving DecidableEq, Repr

/-- Execute one phase of one thread.  `pickTimestamp` builds the thread's
`msg_entry` from the current clock (this is the code before
`with messages_lock:`); `appendUnderLock` appends the prepared entry to the
shared log (the code inside the lock).  A phase that already ran is a no-op. -/
def runPhase (s : ConcState) : SendPhase → ConcState
  | SendPhase.pickTimestamp i =>
      let t := if i then s.thread1 else s.thread0
      match t.prepared with
      | some _ => s
      | none =>
          let entry := mkMsgEntry s.users t.from_user_id t.to_user_id "message"
            t.content t.msg_id s.clock
          let t' : PendingSend := { t with prepared := some entry }
          if i then { s with clock := s.clock + 1, thread1 := t' }
          else { s with clock := s.clock + 1, thread0 := t' }
  | SendPhase.appendUnderLock i =>
      let t := if i then s.thread1 else s.thread0
      match t.prepared with
      | none => s
      | some m =>
          let t' : PendingSend := { t with prepared := none }
          if i then { s with messages := s.messages ++ [m], thread1 := t' }
          else { s with messages := s.messages ++ [m], thread0 := t' }

/-- Run an interleaving of the two threads' phases. -/
def runSchedule : ConcState → List SendPhase → ConcState
  | s, [] => s
  | s, p :: rest => runSchedule (runPhase s p) rest

/-- Two concurrent `send_message` calls about to start, over an empty log. -/
def concInit : ConcState :=
  { clock := 0
    users := []
    messages := []
    thread0 := ⟨"alice", "all", "first", "m0", none⟩
    thread1 := ⟨"bob", "all", "second", "m1", none⟩ }

/-- The interleaving: thread 0 reads its timestamp first, but thread 1 reads
its (later) timestamp and acquires the lock first. -/
def badSchedule : List SendPhase :=
  [SendPhase.pickTimestamp false, SendPhase.pickTimestamp true,
   SendPhase.appendUnderLock true, SendPhase.appendUnderLock false]

/-- The log only ever grows at the end: `new` is `old` with a (possibly empty)
batch of messages appended. -/
def logExtends (old new : List Msg) : Prop :=
  ∃ tail, new = old ++ tail

lemma logExtends_refl (l : List Msg) : logExtends l l :=
  ⟨[], by simp⟩

lemma logExtends_append (l tail : List Msg) : logExtends l (l ++ tail) :=
  ⟨tail, rfl⟩

lemma logExtends_take {old new : List Msg} (h : logExtends old new) :
    new.take old.length = old := by
  obtain ⟨tail, rfl⟩ := h
  simp

lemma get_messages_eq_filter (msgs : List Msg) (uid : String) (since : ℚ) :
    get_messages msgs uid since =
      msgs.filter
        (fun m => decide (since < m.timestamp ∧ (m.to_user_id = uid ∨ m.to_user_id = "all"))) := by
  induction msgs with
  | nil => rfl
  | cons m rest ih =>
      by_cases h : since < m.timestamp ∧ (m.to_user_id = uid ∨ m.to_user_id = "all")
      · simp [get_messages, h, ih]
      · simp [get_messages, h, ih]

lemma mem_get_messages {msgs : List Msg} {uid : String} {since : ℚ} {m : Msg} :
    m ∈ get_messages msgs uid since ↔
      m ∈ msgs ∧ since < m.timestamp ∧ (m.to_user_id = uid ∨ m.to_user_id = "all") := by
  rw [get_messages_eq_filter, List.mem_filter]
  simp

lemma get_messages_sublist (msgs : List Msg) (uid : String) (since : ℚ) :
    List.Sublist (get_messages msgs uid since) msgs := by
  rw [get_messages_eq_filter]
  exact List.filter_sublist msgs

lemma get_messages_pairwise {msgs : List Msg} (uid : String) (since : ℚ)
    (h : List.Pairwise (fun a b => a.timestamp ≤ b.timestamp) msgs) :
    List.Pairwise (fun a b => a.timestamp ≤ b.timestamp) (get_messages msgs uid since) :=
  List.Pairwise.sublist (get_messages_sublist msgs uid since) h

lemma prune_users_sweep_fst (now timeout : ℚ) (users : Users) :
    (prune_users_sweep now timeout users).1 =
      users.filter (fun u => decide (now - u.2.last_seen < timeout)) := by
  induction users with
  | nil => rfl
  | cons u rest ih =>
      obtain ⟨uid, info⟩ := u
      by_cases h : now - info.last_seen < timeout
      · simp [prune_users_sweep, h, ih]
      · simp [prune_users_sweep, h, ih]

lemma prune_users_sweep_snd (now timeout : ℚ) (users : Users) :
    (prune_users_sweep now timeout users).2 =
      users.filter (fun u => decide (timeout ≤ now - u.2.last_seen)) := by
  induction users with
  | nil => rfl
  | cons u rest ih =>
      obtain ⟨uid, info⟩ := u
      by_cases h : now - info.last_seen < timeout
      · simp [prune_users_sweep, h, ih, not_le.mpr h]
      · simp [prune_users_sweep, h, ih, not_lt.mp h]

lemma prune_users_sweep_length (now timeout : ℚ) (users : Users) :
    (prune_users_sweep now timeout users).1.length
      + (prune_users_sweep now timeout users).2.length = users.length := by
  induction users with
  | nil => rfl
  | cons u rest ih =>
      obtain ⟨uid, info⟩ := u
      by_cases h : now - info.last_seen < timeout
      · simp only [prune_users_sweep, h, if_pos, List.length_cons]
        omega
      · simp only [prune_users_sweep, h, if_neg, List.length_cons, not_false_iff]
        omega

lemma dictInsert_of_fresh {k : String} {users : Users}
    (h : dictLookup k users = none) (v : UserInfo) :
    dictInsert k v users = users ++ [(k, v)] := by
  induction users with
  | nil => rfl
  | cons u rest ih =>
      obtain ⟨k', v'⟩ := u
      by_cases hk : k' = k
      · simp [dictLookup, hk] at h
      · have h' : dictLookup k rest = none := by simpa [dictLookup, hk] using h
        simp [dictInsert, hk, ih h']

lemma dictLookup_append_self {k : String} {users : Users}
    (h : dictLookup k users = none) (v : UserInfo) :
    dictLookup k (users ++ [(k, v)]) = some v := by
  induction users with
  | nil => simp [dictLookup]
  | cons u rest ih =>
      obtain ⟨k', v'⟩ := u
      by_cases hk : k' = k
      · simp [dictLookup, hk] at h
      · have h' : dictLookup k rest = none := by simpa [dictLookup, hk] using h
        simpa [dictLookup, hk] using ih h'

lemma dictLookup_append_of_ne {k k' : String} (hne : k ≠ k')
    (users : Users) (v : UserInfo) :
    dictLookup k (users ++ [(k', v)]) = dictLookup k users := by
  induction users with
  | nil =>
      have h2 : k' ≠ k := fun h => hne h.symm
      simp [dictLookup, h2]
  | cons u rest ih =>
      obtain ⟨k'', v''⟩ := u
      by_cases hk : k'' = k
      · simp [dictLookup, hk]
      · simp [dictLookup, hk, ih]

lemma dictLookup_touchEntry_self (k : String) (now : ℚ) (users : Users) :
    dictLookup k (touchEntry k now users)
      = Option.map (fun i => UserInfo.mk i.name now) (dictLookup k users) := by
  induction users with
  | nil => rfl
  | cons u rest ih =>
      obtain ⟨k', v⟩ := u
      by_cases hk : k' = k
      · simp [dictLookup, touchEntry, hk]
      · simp [dictLookup, touchEntry, hk, ih]

lemma dictLookup_touchEntry_of_ne {k k' : String} (hne : k ≠ k')
    (now : ℚ) (users : Users) :
    dictLookup k (touchEntry k' now users) = dictLookup k users := by
  induction users with
  | nil => rfl
  | cons u rest ih =>
      obtain ⟨k'', v⟩ := u
      by_cases hk : k'' = k'
      · subst hk
        have h2 : k'' ≠ k := fun h => hne h.symm
        simp [dictLookup, touchEntry, h2]
      · by_cases hk2 : k'' = k
        · subst hk2
          simp [dictLookup, touchEntry, hk]
        · simp [dictLookup, touchEntry, hk, hk2, ih]

lemma send_message_logExtends (users : Users) (msgs : List Msg)
    (from_user_id to_user_id message fresh_id : String) (now : ℚ) :
    logExtends msgs (send_message users msgs from_user_id to_user_id message fresh_id now).1 := by
  unfold send_message
  split
  · exact logExtends_refl _
  · exact logExtends_append _ _

lemma send_file_logExtends (users : Users) (msgs : List Msg)
    (from_user_id to_user_id filename fresh_id : String) (now : ℚ) :
    logExtends msgs (send_file users msgs from_user_id to_user_id filename fresh_id now).1 := by
  unfold send_file
  split
  · exact logExtends_refl _
  · split
    · exact logExtends_refl _
    · exact logExtends_append _ _

/-- Claim C2: one `EvictStale(now, timeout)` sweep (the body of `prune_users`)
retains, verbatim and in registry order, exactly the identities with
`now - lastSeen < timeout`; it removes exactly those with
`now - lastSeen ≥ timeout`, reporting each removed identity in its prune log,
so retained plus evicted accounts for the whole registry and the length of the
prune log is the number of identities evicted. -/
theorem C2_evict_stale_exact (now timeout : ℚ) (users : Users) :
    (prune_users_sweep now timeout users).1 =
        users.filter (fun u => decide (now - u.2.last_seen < timeout))
  ∧ (prune_users_sweep now timeout users).2 =
        users.filter (fun u => decide (timeout ≤ now - u.2.last_seen))
  ∧ (∀ uid info, (uid, info) ∈ (prune_users_sweep now timeout users).1 ↔
        (uid, info) ∈ users ∧ now - info.last_seen < timeout)
  ∧ (∀ uid info, (uid, info) ∈ (prune_users_sweep now timeout users).2 ↔
        (uid, info) ∈ users ∧ timeout ≤ now - info.last_seen)
  ∧ (prune_users_sweep now timeout users).1.length
      + (prune_users_sweep now timeout users).2.length = users.length := by
  refine ⟨prune_users_sweep_fst now timeout users, prune_users_sweep_snd now timeout users,
    ?_, ?_, prune_users_sweep_length now timeout users⟩
  · intro uid info
    rw [prune_users_sweep_fst, List.mem_filter]
    simp
  · intro uid info
    rw [prune_users_sweep_snd, List.mem_filter]
    simp

/-- Claim C6: the message log is append-only and its entries immutable: each
of `Append` (`send_message`, `send_file`), `QuerySince` (`get_messages`),
`Register` (`login`), `Touch` (`heartbeat`), `ListOnline` (`get_users`) and
`EvictStale` (`prune_users`) maps a state to one whose log is the old log with
a (possibly empty) batch appended, so the old log is a prefix of the new one
and every pre-existing entry is unchanged. -/
theorem C6_log_append_only (s : AppState)
    (name fresh_id uid from_user_id to_user_id message filename : String)
    (now timeout since : ℚ) :
    logExtends s.messages
        (send_message_route s from_user_id to_user_id message fresh_id now).1.messages
  ∧ ((send_message_route s from_user_id to_user_id message fresh_id now).1.messages.take
        s.messages.length = s.messages)
  ∧ logExtends s.messages
        (send_file_route s from_user_id to_user_id filename fresh_id now).1.messages
  ∧ ((send_file_route s from_user_id to_user_id filename fresh_id now).1.messages.take
        s.messages.length = s.messages)
  ∧ (get_messages_route s uid since).1.messages = s.messages
  ∧ (login_route s name fresh_id now).1.messages = s.messages
  ∧ (heartbeat_route s uid now).1.messages = s.messages
  ∧ (get_users_route s).1.messages = s.messages
  ∧ (prune_route s now timeout).1.messages = s.messages := by
  refine ⟨send_message_logExtends s.users s.messages from_user_id to_user_id message fresh_id now,
    logExtends_take (send_message_logExtends s.users s.messages from_user_id to_user_id message
      fresh_id now),
    send_file_logExtends s.users s.messages from_user_id to_user_id filename fresh_id now,
    logExtends_take (send_file_logExtends s.users s.messages from_user_id to_user_id filename
      fresh_id now),
    rfl, ?_, rfl, rfl, rfl⟩
  by_cases h : name = "" <;> simp [login_route, login, h]

/-- Claim C7: `EvictStale` never modifies the Message Store: a `prune_users`
sweep leaves the log identical, so every `QuerySince` answer — in particular
for messages sent by an evicted identity — is unchanged. -/
theorem C7_evict_preserves_messages (s : AppState) (now timeout : ℚ) :
    (prune_route s now timeout).1.messages = s.messages
  ∧ ∀ (uid : String) (since : ℚ),
      get_messages (prune_route s now timeout).1.messages uid since
        = get_messages s.messages uid since :=
  ⟨rfl, fun _ _ => rfl⟩

/-- Claim C8: `EvictStale` is idempotent: sweeping the already-swept registry
with the same `now` and `timeout` returns it unchanged and evicts nothing new
(its prune log is empty). -/
theorem C8_evict_stale_idempotent (now timeout : ℚ) (users : Users) :
    prune_users_sweep now timeout (prune_users_sweep now timeout users).1
      = ((prune_users_sweep now timeout users).1, []) := by
  rw [Prod.ext_iff]
  constructor
  · rw [prune_users_sweep_fst now timeout (prune_users_sweep now timeout users).1]
    apply List.filter_eq_self.mpr
    intro a ha
    rw [prune_users_sweep_fst] at ha
    exact (List.mem_filter.mp ha).2
  · rw [prune_users_sweep_snd now timeout (prune_users_sweep now timeout users).1]
    apply List.filter_eq_nil_iff.mpr
    intro a ha
    rw [prune_users_sweep_fst] at ha
    have hkeep := (List.mem_filter.mp ha).2
    simp only [decide_eq_true_eq] at hkeep ⊢
    exact not_le.mpr hkeep

/-- Claim C9: `QuerySince` is read-only: the `/get/messages` handler returns
the shared state — registry and log — exactly as it found it. -/
theorem C9_query_read_only (s : AppState) (uid : String) (since : ℚ) :
    (get_messages_route s uid since).1 = s
  ∧ (get_messages_route s uid since).1.users = s.users
  ∧ (get_messages_route s uid since).1.messages = s.messages :=
  ⟨rfl, rfl, rfl⟩

/-- Claim C1 (amended): `QuerySince(r, t)` returns exactly the messages with
`createdAt > t` addressed to `r` or to the broadcast sentinel `"all"`,
preserving log insertion order — hence in non-decreasing `createdAt` order
whenever the log itself is sorted by `createdAt`; and after a direct
`Append(A, ., B, text)` followed by a broadcast `Append(A, ., "all", text)`,
`QuerySince(B, 0)` returns both messages in insertion order while
`QuerySince(A, 0)` returns only the broadcast one. -/
theorem C1_query_since (msgs : List Msg) (uid : String) (since : ℚ) :
    (∀ m : Msg, m ∈ get_messages msgs uid since ↔
        m ∈ msgs ∧ since < m.timestamp ∧ (m.to_user_id = uid ∨ m.to_user_id = "all"))
  ∧ (List.Pairwise (fun a b => a.timestamp ≤ b.timestamp) msgs →
      List.Pairwise (fun a b => a.timestamp ≤ b.timestamp) (get_messages msgs uid since))
  ∧ (∀ (users : Users) (A B text1 text2 id1 id2 : String) (t1 t2 : ℚ),
      A ≠ "" → B ≠ "" → B ≠ "all" → A ≠ B → text1 ≠ "" → text2 ≠ "" →
      0 < t1 → t1 ≤ t2 →
        send_message users [] A B text1 id1 t1
            = ([mkMsgEntry users A B "message" text1 id1 t1], SendResult.ok)
      ∧ send_message users [mkMsgEntry users A B "message" text1 id1 t1]
            A "all" text2 id2 t2
          = ([mkMsgEntry users A B "message" text1 id1 t1,
              mkMsgEntry users A "all" "message" text2 id2 t2], SendResult.ok)
      ∧ get_messages [mkMsgEntry users A B "message" text1 id1 t1,
            mkMsgEntry users A "all" "message" text2 id2 t2] B 0
          = [mkMsgEntry users A B "message" text1 id1 t1,
             mkMsgEntry users A "all" "message" text2 id2 t2]
      ∧ get_messages [mkMsgEntry users A B "message" text1 id1 t1,
            mkMsgEntry users A "all" "message" text2 id2 t2] A 0
          = [mkMsgEntry users A "all" "message" text2 id2 t2]) := by
  refine ⟨fun m => mem_get_messages, get_messages_pairwise uid since, ?_⟩
  intro users A B text1 text2 id1 id2 t1 t2 hA hB hBall hAB htext1 htext2 ht1 ht12
  have ht2 : 0 < t2 := lt_of_lt_of_le ht1 ht12
  have hBA : B ≠ A := Ne.symm hAB
  refine ⟨?_, ?_, ?_, ?_⟩
  · simp [send_message, hA, hB, htext1]
  · simp [send_message, hA, htext2]
  · simp [get_messages, mkMsgEntry, ht1, ht2]
  · simp [get_messages, mkMsgEntry, ht2, hBA, hBall]

/-- Witness for C1 at a concrete two-append scenario: Alice sends "hi"
directly to Bob at time 1, then broadcasts "yo" at time 2; Bob's query from
cursor 0 sees both in order, Alice's sees only the broadcast. -/
theorem C1_witness :
    send_message [] [] "alice" "bob" "hi" "m1" 1
        = ([mkMsgEntry [] "alice" "bob" "message" "hi" "m1" 1], SendResult.ok)
  ∧ send_message [] [mkMsgEntry [] "alice" "bob" "message" "hi" "m1" 1]
        "alice" "all" "yo" "m2" 2
      = ([mkMsgEntry [] "alice" "bob" "message" "hi" "m1" 1,
          mkMsgEntry [] "alice" "all" "message" "yo" "m2" 2], SendResult.ok)
  ∧ get_messages [mkMsgEntry [] "alice" "bob" "message" "hi" "m1" 1,
        mkMsgEntry [] "alice" "all" "message" "yo" "m2" 2] "bob" 0
      = [mkMsgEntry [] "alice" "bob" "message" "hi" "m1" 1,
         mkMsgEntry [] "alice" "all" "message" "yo" "m2" 2]
  ∧ get_messages [mkMsgEntry [] "alice" "bob" "message" "hi" "m1" 1,
        mkMsgEntry [] "alice" "all" "message" "yo" "m2" 2] "alice" 0
      = [mkMsgEntry [] "alice" "all" "message" "yo" "m2" 2] :=
  (C1_query_since [] "x" 0).2.2 [] "alice" "bob" "hi" "yo" "m1" "m2" 1 2
    (by decide) (by decide) (by decide) (by decide) (by decide) (by decide)
    (by decide) (by decide)

/-- A log whose two matching messages are stored out of timestamp order. -/
def msgsUnsorted : List Msg :=
  [mkMsgEntry [] "alice" "bob" "message" "late" "m1" 5,
   mkMsgEntry [] "alice" "bob" "message" "early" "m2" 3]

/-- Counterexample to C1 as stated: on a log state whose entries are not
sorted by `createdAt`, `QuerySince("bob", 0)` returns both messages, but not
in non-decreasing `createdAt` order. -/
theorem C1_counterexample :
    get_messages msgsUnsorted "bob" 0 = msgsUnsorted
  ∧ ¬ List.Pairwise (fun a b => a.timestamp ≤ b.timestamp)
      (get_messages msgsUnsorted "bob" 0) := by
  constructor
  · decide
  · decide

/-- Claim C10 (amended): `QuerySince` performs no sorting: its result is a
sublist (subsequence) of the log — precisely the log filtered by the match
condition, preserving relative append order — and therefore the output is in
non-decreasing `createdAt` order whenever the log itself is sorted by
`createdAt` (but not only then). -/
theorem C10_query_subsequence (msgs : List Msg) (uid : String) (since : ℚ) :
    List.Sublist (get_messages msgs uid since) msgs
  ∧ get_messages msgs uid since
      = msgs.filter
          (fun m => decide (since < m.timestamp ∧ (m.to_user_id = uid ∨ m.to_user_id = "all")))
  ∧ (List.Pairwise (fun a b => a.timestamp ≤ b.timestamp) msgs →
      List.Pairwise (fun a b => a.timestamp ≤ b.timestamp) (get_messages msgs uid since)) :=
  ⟨get_messages_sublist msgs uid since, get_messages_eq_filter msgs uid since,
   get_messages_pairwise uid since⟩

/-- A log sorted by `createdAt`, for the C10 witness. -/
def msgsSorted : List Msg :=
  [mkMsgEntry [] "alice" "bob" "message" "one" "m1" 1,
   mkMsgEntry [] "alice" "all" "message" "two" "m2" 2]

/-- Witness for C10 on a concrete sorted log. -/
theorem C10_witness :
    List.Pairwise (fun a b => a.timestamp ≤ b.timestamp)
      (get_messages msgsSorted "bob" 0) :=
  (C10_query_subsequence msgsSorted "bob" 0).2.2 (by decide)

/-- A log out of timestamp order whose two entries go to different direct
recipients. -/
def msgsMixed : List Msg :=
  [mkMsgEntry [] "alice" "u1" "message" "late" "m1" 5,
   mkMsgEntry [] "alice" "u2" "message" "early" "m2" 3]

/-- Counterexample to C10's "exactly when": on this unsorted log every query
output is (vacuously or trivially) in non-decreasing `createdAt` order, yet
the log itself is not sorted — output orderedness does not imply log
sortedness. -/
theorem C10_counterexample :
    List.Pairwise (fun a b => a.timestamp ≤ b.timestamp) (get_messages msgsMixed "u1" 0)
  ∧ List.Pairwise (fun a b => a.timestamp ≤ b.timestamp) (get_messages msgsMixed "u2" 0)
  ∧ List.Pairwise (fun a b => a.timestamp ≤ b.timestamp) (get_messages msgsMixed "u3" 0)
  ∧ ¬ List.Pairwise (fun a b => a.timestamp ≤ b.timestamp) msgsMixed := by
  refine ⟨?_, ?_, ?_, ?_⟩ <;> decide

/-- Claim C3 (amended): `Register` (the `/login` core) fails with
`InvalidInput` exactly when the displayName is the empty string — and in
particular `Register("")` fails — while, with the generated uuid assumed not
already present, a successful call stores `{id, displayName, lastSeen = now}`
at the end of the registry without touching any other entry and returns the
stored id and name.  Whitespace-only names are accepted. -/
theorem C3_register (users : Users) (name fresh_id : String) (now : ℚ) :
    (name = "" → login users name fresh_id now = Except.error "Name is required")
  ∧ (name ≠ "" → dictLookup fresh_id users = none →
        login users name fresh_id now
            = Except.ok (users ++ [(fresh_id, ⟨name, now⟩)], ⟨fresh_id, name⟩)
      ∧ dictLookup fresh_id (users ++ [(fresh_id, ⟨name, now⟩)]) = some ⟨name, now⟩
      ∧ ∀ k, k ≠ fresh_id →
          dictLookup k (users ++ [(fresh_id, ⟨name, now⟩)]) = dictLookup k users)
  ∧ login users "" fresh_id now = Except.error "Name is required" := by
  refine ⟨?_, ?_, ?_⟩
  · intro h
    simp [login, h]
  · intro h hfresh
    exact ⟨by simp [login, h, dictInsert_of_fresh hfresh],
      dictLookup_append_self hfresh _,
      fun k hk => dictLookup_append_of_ne hk users _⟩
  · simp [login]

/-- Witness for C3: registering "carol" into an empty registry with fresh id
"id1" at time 0 succeeds and stores the record; registering "" fails. -/
theorem C3_witness :
    login [] "carol" "id1" 0
        = Except.ok ([("id1", ⟨"carol", 0⟩)], ⟨"id1", "carol"⟩)
  ∧ login [] "" "id1" 0 = Except.error "Name is required" :=
  ⟨((C3_register [] "carol" "id1" 0).2.1 (by decide) rfl).1,
   (C3_register [] "carol" "id1" 0).2.2⟩

/-- Counterexample to C3 as stated: a whitespace-only displayName is *not*
rejected — `if not name` only catches the empty string, so `login` with
name `" "` succeeds and stores the blank name. -/
theorem C3_counterexample :
    login [] " " "id1" 0 = Except.ok ([("id1", ⟨" ", 0⟩)], ⟨"id1", " "⟩) := by
  rfl

/-- Claim C4 (amended): for every registry state and every *non-empty* id,
`Touch(id)` (the `/heartbeat` core) succeeds and rewrites that identity's
`lastSeen` to `now` — a strict advance whenever `now` exceeds the stored
`lastSeen` — leaving every other entry untouched, and returns `NotFound`
exactly when the id is absent, leaving the registry unchanged in that case. -/
theorem C4_touch (users : Users) (uid : String) (now : ℚ) (h : uid ≠ "") :
    (∀ info, dictLookup uid users = some info →
        heartbeat users uid now = (touchEntry uid now users, HeartbeatResult.ok)
      ∧ dictLookup uid (touchEntry uid now users) = some ⟨info.name, now⟩
      ∧ (info.last_seen < now →
          ∀ info', dictLookup uid (touchEntry uid now users) = some info' →
            info.last_seen < info'.last_seen)
      ∧ ∀ k, k ≠ uid → dictLookup k (touchEntry uid now users) = dictLookup k users)
  ∧ ((heartbeat users uid now).2 = HeartbeatResult.notFound ↔ dictLookup uid users = none)
  ∧ (dictLookup uid users = none → heartbeat users uid now = (users, HeartbeatResult.notFound)) := by
  refine ⟨?_, ?_, ?_⟩
  · intro info hinfo
    have hsome : (dictLookup uid users).isSome := by simp [hinfo]
    refine ⟨by simp [heartbeat, h, hsome], ?_, ?_,
      fun k hk => dictLookup_touchEntry_of_ne hk now users⟩
    · rw [dictLookup_touchEntry_self, hinfo]
      rfl
    · intro hlt info' hinfo'
      rw [dictLookup_touchEntry_self, hinfo] at hinfo'
      simp only [Option.map_some', Option.some.injEq] at hinfo'
      rw [← hinfo']
      exact hlt
  · by_cases hs : (dictLookup uid users).isSome
    · have hne : dictLookup uid users ≠ none := by
        intro hn
        rw [hn] at hs
        exact Bool.noConfusion hs
      simp [heartbeat, h, hs, hne]
    · have hnone : dictLookup uid users = none := Option.not_isSome_iff_eq_none.mp hs
      simp [heartbeat, hs, hnone]
  · intro hnone
    have hs : ¬ (dictLookup uid users).isSome := by simp [hnone]
    simp [heartbeat, hs]

/-- Witness for C4: touching "u1" (present, lastSeen 0) at time 1 succeeds and
advances lastSeen to 1; touching the absent id "u9" returns NotFound and
leaves the registry unchanged. -/
theorem C4_witness :
    heartbeat [("u1", ⟨"carol", 0⟩)] "u1" 1
        = (touchEntry "u1" 1 [("u1", ⟨"carol", 0⟩)], HeartbeatResult.ok)
  ∧ dictLookup "u1" (touchEntry "u1" 1 [("u1", ⟨"carol", 0⟩)]) = some ⟨"carol", 1⟩
  ∧ heartbeat [("u1", ⟨"carol", 0⟩)] "u9" 1
      = ([("u1", ⟨"carol", 0⟩)], HeartbeatResult.notFound) :=
  ⟨((C4_touch [("u1", ⟨"carol", 0⟩)] "u1" 1 (by decide)).1 ⟨"carol", 0⟩ rfl).1,
   ((C4_touch [("u1", ⟨"carol", 0⟩)] "u1" 1 (by decide)).1 ⟨"carol", 0⟩ rfl).2.1,
   (C4_touch [("u1", ⟨"carol", 0⟩)] "u9" 1 (by decide)).2.2 rfl⟩

/-- Counterexample to C4 as stated: `if user_id and user_id in users` tests
Python truthiness first, so on a registry state containing the key `""` the
handler answers `NotFound` even though the id is present — `NotFound` is not
equivalent to absence over every registry state and every id. -/
theorem C4_counterexample :
    heartbeat [("", ⟨"ghost", 0⟩)] "" 1
        = ([("", ⟨"ghost", 0⟩)], HeartbeatResult.notFound)
  ∧ dictLookup "" [("", ⟨"ghost", 0⟩)] = some ⟨"ghost", 0⟩ := by
  constructor
  · rfl
  · rfl

/-- Claim C5 (the code violates it): in `send_message` the timestamp and
message id are picked and `msg_entry` is built *before* `with messages_lock:`
is entered; only the append itself is locked.  Interleaving two in-flight
sends — thread 0 reads its timestamp (0) first, thread 1 reads a later
timestamp (1) but appends first — stores the log out of timestamp order even
under a strictly increasing clock. -/
theorem C5_nonatomic_append :
    (runSchedule concInit badSchedule).messages.map Msg.timestamp = [1, 0]
  ∧ ¬ List.Pairwise (fun a b : ℚ => a ≤ b)
      ((runSchedule concInit badSchedule).messages.map Msg.timestamp) := by
  have hmap : (runSchedule concInit badSchedule).messages.map Msg.timestamp = [1, 0] := by
    norm_num [runSchedule, runPhase, concInit, badSchedule, mkMsgEntry, usersGetName, dictLookup]
  refine ⟨hmap, ?_⟩
  rw [hmap]
  decide

end LocalShare
